import Mathlib

/-
Verification development for the AwGo magic-action dispatcher
(package `aw`, file `magic.go`, plus the vendored `icons.go`).

The Go code is shallowly embedded: every pure value (keywords,
descriptions, icons) is translated directly; the side-effecting calls
made by `MagicActions.Args` (logging, UI feedback, log flushing,
running an action, `os.Exit`) are recorded as an explicit trace of
`Effect`s, and the "return the arguments or never return" contract is
an explicit `ArgsResult` (pass the arguments through, or exit with a
status code).  A Go map is embedded as an association list whose
well-formedness predicate (`MagicActions.WF`) captures exactly what a
Go map guarantees: at most one entry per key.
-/

set_option autoImplicit false

namespace AwGo

/-- Icon type string, from `icons.go`: the empty `IconType` means the
value is a path to an image file. -/
def IconTypeImageFile : String := ""

/-- Icon for an Alfred item, from `icons.go` (`Value` is a path or UTI;
`IType` embeds the Go field `Type`, renamed because `Type` is a Lean
keyword). -/
structure Icon where
  Value : String
  IType : String
deriving DecidableEq, Repr

/-- From `icons.go`: `systemIcon(filename)` builds an image-file icon
pointing into the macOS CoreTypes resources. -/
def systemIcon (filename : String) : Icon :=
  { Value := "/System/Library/CoreServices/CoreTypes.bundle/Contents/Resources/" ++ filename ++ ".icns",
    IType := IconTypeImageFile }

/-- From `icons.go` `init()`: `IconInfo = systemIcon("ToolbarInfo")`. -/
def IconInfo : Icon := systemIcon "ToolbarInfo"

/-- From `icons.go` `init()`: `IconWarning = systemIcon("AlertCautionIcon")`. -/
def IconWarning : Icon := systemIcon "AlertCautionIcon"

/-- A magic action (the `MagicAction` interface of `magic.go`).  The
four facets `Keyword`, `Description`, `RunText` are the interface's
read-only strings; `Run` is embedded by its observable result: `none`
for success, `some err` for a failure with error text `err`. -/
structure MagicAction where
  Keyword : String
  Description : String
  RunText : String
  Run : Option String
deriving DecidableEq, Repr

/-- Modelled from the spec: an Alfred feedback item with the chainable
attributes the UI-feedback collaborator exposes (`NewItem(title)`,
`Icon`, `Subtitle`, `Valid`, `UID`, `Autocomplete`, `Match`); the item
type itself is not under `src/`.  `matchStr` embeds the `Match`
attribute (`match` is a Lean keyword). -/
structure Item where
  title : String
  subtitle : Option String
  valid : Bool
  icon : Option Icon
  uid : Option String
  autocomplete : Option String
  matchStr : Option String
deriving DecidableEq, Repr

/-- Modelled from the spec: `NewItem(title)` creates an item with the
given title and no other attribute set (items are valid by default). -/
def NewItem (title : String) : Item :=
  { title := title, subtitle := none, valid := true, icon := none,
    uid := none, autocomplete := none, matchStr := none }

/-- Chainable `Icon` attribute setter. -/
def Item.Icon (it : Item) (i : Icon) : Item := { it with icon := some i }

/-- Chainable `Subtitle` attribute setter. -/
def Item.Subtitle (it : Item) (s : String) : Item := { it with subtitle := some s }

/-- Chainable `Valid` attribute setter. -/
def Item.Valid (it : Item) (v : Bool) : Item := { it with valid := v }

/-- Chainable `UID` attribute setter. -/
def Item.UID (it : Item) (u : String) : Item := { it with uid := some u }

/-- Chainable `Autocomplete` attribute setter. -/
def Item.Autocomplete (it : Item) (a : String) : Item := { it with autocomplete := some a }

/-- Chainable `Match` attribute setter. -/
def Item.Match (it : Item) (m : String) : Item := { it with matchStr := some m }

/-- One observable side effect of `MagicActions.Args`: a log line
(`log.Printf`), a feedback item (`NewItem` chain), the `Filter`,
`WarnEmpty`, `SendFeedback` and `finishLog` collaborator calls, and the
invocation of an action's `Run`. -/
inductive Effect where
  | logLine (s : String)
  | uiItem (it : Item)
  | filter (query : String)
  | warnEmpty (title subtitle : String)
  | sendFeedback
  | finishLog (isFailure : Bool)
  | runAction (a : MagicAction)
deriving DecidableEq, Repr

/-- Whether an effect is an invocation of some action's `Run`. -/
def Effect.isRun : Effect → Bool
  | Effect.runAction _ => true
  | _ => false

/-- Whether an effect is a `Filter` call (the fallback listing's filter). -/
def Effect.isFilter : Effect → Bool
  | Effect.filter _ => true
  | _ => false

/-- Whether an effect is the emission of a feedback item. -/
def Effect.isUI : Effect → Bool
  | Effect.uiItem _ => true
  | _ => false

/-- The registry of `magic.go`: `type MagicActions map[string]MagicAction`,
embedded as an association list from keyword to action. -/
abbrev MagicActions := List (String × MagicAction)

/-- Go map indexing `ma[query]`: the entry stored under the key, or
`none` (Go: the nil interface) when the key is absent. -/
def MagicActions.lookup : MagicActions → String → Option MagicAction
  | [], _ => none
  | (k, a) :: rest, q => if k = q then some a else MagicActions.lookup rest q

/-- Go map assignment `ma[action.Keyword()] = action`: overwrite the
entry stored under the keyword, or add one when the keyword is new. -/
def MagicActions.registerOne : MagicActions → MagicAction → MagicActions
  | [], a => [(a.Keyword, a)]
  | (k, b) :: rest, a =>
    if k = a.Keyword then (k, a) :: rest
    else (k, b) :: MagicActions.registerOne rest a

/-- From `magic.go`: `Register` adds each action to the mapping;
previous entries are overwritten. -/
def MagicActions.Register (ma : MagicActions) (actions : List MagicAction) : MagicActions :=
  actions.foldl MagicActions.registerOne ma

/-- Go map deletion `delete(ma, action.Keyword())`: remove the entry
stored under the keyword, if any. -/
def MagicActions.unregisterOne : MagicActions → MagicAction → MagicActions
  | [], _ => []
  | (k, b) :: rest, a =>
    if k = a.Keyword then rest
    else (k, b) :: MagicActions.unregisterOne rest a

/-- From `magic.go`: `Unregister` removes each action from the mapping,
based on its keyword. -/
def MagicActions.Unregister (ma : MagicActions) (actions : List MagicAction) : MagicActions :=
  actions.foldl MagicActions.unregisterOne ma

/-- Go `strings.TrimSpace(s)`: `s` with all leading and trailing
whitespace removed, as a structural function on the character list.
(Go trims by `unicode.IsSpace`; the claims only involve the common
whitespace characters covered by `Char.isWhitespace`.) -/
def trimSpace (s : String) : String :=
  String.mk (((s.data.dropWhile Char.isWhitespace).reverse.dropWhile Char.isWhitespace).reverse)

/-- Go `strings.HasPrefix(s, pfx)`: the first `len(pfx)` characters of
`s` are exactly `pfx`. -/
def hasMagicPre (s pfx : String) : Bool :=
  s.data.take pfx.data.length == pfx.data

/-- Go slicing `s[len(pfx):]` as used in `Args` right after
`strings.HasPrefix(s, pfx)` succeeded: drop the leading `pfx`. -/
def dropMagicPre (s pfx : String) : String :=
  String.mk (s.data.drop pfx.data.length)

/-- The effect trace of the exact-match branch of `Args` (`magic.go`
lines 64-75): log `RunText`, send one non-actionable info item, invoke
`Run`; on failure log an error line naming the description and the
failure reason and flush the log as a failure; finally flush the log as
a non-failure.  The caller exits with status 0 afterwards. -/
def exactRunEffects (action : MagicAction) : List Effect :=
  [Effect.logLine action.RunText,
   Effect.uiItem (((NewItem action.RunText).Icon IconInfo).Valid false),
   Effect.sendFeedback,
   Effect.runAction action] ++
  (match action.Run with
   | some err =>
     [Effect.logLine ("Error running magic arg `" ++ action.Description ++ "`: " ++ err),
      Effect.finishLog true]
   | none => []) ++
  [Effect.finishLog false]

/-- The feedback item built for one registry entry in the fallback
branch of `Args` (`magic.go` lines 77-85). -/
def fallbackItem (pfx kw : String) (action : MagicAction) : Item :=
  ((((((NewItem action.Keyword).Subtitle action.Description).Valid false).Icon
      IconInfo).UID action.Description).Autocomplete (pfx ++ kw)).Match
    (action.Keyword ++ " " ++ action.Description)

/-- The effect trace of the fallback branch of `Args` (`magic.go` lines
76-89): one item per registry entry, then `Filter(query)`,
`WarnEmpty(...)` and `SendFeedback()`.  The caller exits with status 0
afterwards. -/
def fallbackEffects (ma : MagicActions) (pfx query : String) : List Effect :=
  (ma.map fun p => Effect.uiItem (fallbackItem pfx p.1 p.2)) ++
  [Effect.filter query,
   Effect.warnEmpty "No matching action" "Try another query?",
   Effect.sendFeedback]

/-- The body of the `if` in `Args` once an argument carrying the magic
prefix has been found: look the query up in the registry and take the
exact-match branch or the fallback branch. -/
def handleQuery (ma : MagicActions) (pfx query : String) : List Effect :=
  match ma.lookup query with
  | some action => exactRunEffects action
  | none => fallbackEffects ma pfx query

/-- The result of `Args`: either the unmodified argument vector is
handed back to the caller, or the process exits with the given status
code (`os.Exit`). -/
inductive ArgsResult where
  | passThrough (args : List String)
  | exited (code : Nat)
deriving DecidableEq, Repr

/-- The argument scan of `Args` (`magic.go` lines 59-92): trim each
argument in order; the first one carrying the prefix is handled and
ends the process (`some` effect trace); otherwise keep scanning. -/
def ArgsLoop (ma : MagicActions) (pfx : String) : List String → Option (List Effect)
  | [] => none
  | arg :: rest =>
    let a := trimSpace arg
    if hasMagicPre a pfx then some (handleQuery ma pfx (dropMagicPre a pfx))
    else ArgsLoop ma pfx rest

/-- From `magic.go`: `Args` runs a magic action or returns the
command-line arguments.  The Go function either calls `os.Exit(0)`
after the recorded side effects, or returns `args` unchanged with no
side effect. -/
def MagicActions.Args (ma : MagicActions) (args : List String) (pfx : String) :
    ArgsResult × List Effect :=
  match ArgsLoop ma pfx args with
  | some effects => (ArgsResult.exited 0, effects)
  | none => (ArgsResult.passThrough args, [])

/-- Modelled from the spec: the filesystem collaborators `OpenLog`,
`OpenCache`, `ClearCache`, `OpenData`, `ClearData` and `Reset` that the
built-in actions delegate to are not under `src/`; the spec only says
each returns success or failure, so each is embedded by its observable
result (`none` for success, `some reason` for failure). -/
structure WorkflowOps where
  OpenLog : Option String
  OpenCache : Option String
  ClearCache : Option String
  OpenData : Option String
  ClearData : Option String
  Reset : Option String
deriving DecidableEq, Repr

/-- From `magic.go`: `openLogMagic` opens the workflow's log file. -/
def openLogMagic (w : WorkflowOps) : MagicAction :=
  { Keyword := "log", Description := "Open workflow's log file",
    RunText := "Opening log file…", Run := w.OpenLog }

/-- From `magic.go`: `openDataMagic` opens the workflow's data directory. -/
def openDataMagic (w : WorkflowOps) : MagicAction :=
  { Keyword := "data", Description := "Open workflow's data directory",
    RunText := "Opening data directory…", Run := w.OpenData }

/-- From `magic.go`: `openCacheMagic` opens the workflow's cache directory. -/
def openCacheMagic (w : WorkflowOps) : MagicAction :=
  { Keyword := "cache", Description := "Open workflow's cache directory",
    RunText := "Opening cache directory…", Run := w.OpenCache }

/-- From `magic.go`: `clearCacheMagic` deletes the contents of the
workflow's cache directory. -/
def clearCacheMagic (w : WorkflowOps) : MagicAction :=
  { Keyword := "delcache", Description := "Delete workflow's cached data",
    RunText := "Deleted workflow's cached data", Run := w.ClearCache }

/-- From `magic.go`: `clearDataMagic` deletes the contents of the
workflow's data directory. -/
def clearDataMagic (w : WorkflowOps) : MagicAction :=
  { Keyword := "deldata", Description := "Delete workflow's saved data",
    RunText := "Deleted workflow's saved data", Run := w.ClearData }

/-- From `magic.go`: `resetMagic` deletes the contents of the workflow's
cache and data directories. -/
def resetMagic (w : WorkflowOps) : MagicAction :=
  { Keyword := "reset", Description := "Delete all saved and cached workflow data",
    RunText := "Deleted workflow saved and cached data", Run := w.Reset }

/-- From `magic.go`: the magic actions registered by default, in source
order. -/
def DefaultMagicActions (w : WorkflowOps) : List MagicAction :=
  [openLogMagic w, openCacheMagic w, clearCacheMagic w,
   openDataMagic w, clearDataMagic w, resetMagic w]

/-- From `magic.go`: `helpMagic` opens the given URL in the default
browser via `exec.Command("open", URL)`; the command's result is not
under `src/`, so it is the parameter `openResult`. -/
def helpMagic (URL : String) (openResult : Option String) : MagicAction :=
  { Keyword := "help", Description := "Open workflow help URL in default browser",
    RunText := "Opening help in your browser…", Run := openResult }

/-- Modelled from the spec: the optional updater collaborator
(`CheckForUpdate() error`, `UpdateAvailable() bool`, `Install() error`)
is not under `src/`; each operation is embedded by its observable
result. -/
structure Updater where
  CheckForUpdate : Option String
  UpdateAvailable : Bool
  Install : Option String
deriving DecidableEq, Repr

/-- One observable step of `updateMagic.Run`: a call into the updater,
or the "No update available" log line. -/
inductive UpdaterEvent where
  | checkForUpdate
  | updateAvailable
  | install
  | logNoUpdate
deriving DecidableEq, Repr

/-- From `magic.go`, `updateMagic.Run`: check for an update, returning
that error on failure; otherwise install only when an update is
available, else log "No update available" and succeed.  The value is
the returned error paired with the trace of updater calls made. -/
def updateMagicRun (u : Updater) : Option String × List UpdaterEvent :=
  match u.CheckForUpdate with
  | some err => (some err, [UpdaterEvent.checkForUpdate])
  | none =>
    if u.UpdateAvailable then
      (u.Install, [UpdaterEvent.checkForUpdate, UpdaterEvent.updateAvailable, UpdaterEvent.install])
    else
      (none, [UpdaterEvent.checkForUpdate, UpdaterEvent.updateAvailable, UpdaterEvent.logNoUpdate])

/-- From `magic.go`: `updateMagic` checks for updates and installs a
newer version if one is available. -/
def updateMagic (u : Updater) : MagicAction :=
  { Keyword := "update", Description := "Check for updates, and install if one is available",
    RunText := "Fetching update…", Run := (updateMagicRun u).1 }

/-- Modelled from the spec: the warning item `WarnEmpty(title, subtitle)`
adds when the feedback buffer is empty. -/
def warnItem (title subtitle : String) : Item :=
  ((NewItem title).Subtitle subtitle).Icon IconWarning

/-- Modelled from the spec: how one recorded effect changes the
UI-feedback collaborator's item buffer.  The buffer collects items;
`Filter` keeps the items matched by the fuzzy-match predicate `f`
(whose algorithm the spec leaves to the collaborator, so it is a
parameter); `WarnEmpty` adds a warning item only when the buffer is
empty; the other effects do not touch the buffer. -/
def applyEffect (f : String → Item → Bool) (buf : List Item) : Effect → List Item
  | Effect.uiItem it => buf ++ [it]
  | Effect.filter q => buf.filter (f q)
  | Effect.warnEmpty t s => if buf.isEmpty then [warnItem t s] else buf
  | _ => buf

/-- The item buffer after a trace of effects, starting from `buf`. -/
def runFeedback (f : String → Item → Bool) (buf : List Item) : List Effect → List Item
  | [] => buf
  | e :: rest => runFeedback f (applyEffect f buf e) rest

/-- The invariant a Go map gives the registry for free: every entry is
stored under its own action's keyword, and keys are not repeated. -/
def MagicActions.WF (ma : MagicActions) : Prop :=
  (∀ p ∈ ma, p.2.Keyword = p.1) ∧ (ma.map Prod.fst).Nodup

/-- One registry mutation: a `Register` or an `Unregister` call, each
with the actions it is passed. -/
inductive RegOp where
  | reg (actions : List MagicAction)
  | unreg (actions : List MagicAction)

/-- A sequence of `Register`/`Unregister` calls applied to a registry. -/
def applyRegOps (ma : MagicActions) : List RegOp → MagicActions
  | [] => ma
  | RegOp.reg actions :: rest => applyRegOps (ma.Register actions) rest
  | RegOp.unreg actions :: rest => applyRegOps (ma.Unregister actions) rest


/-- A workflow-ops environment in which every delegated filesystem
operation succeeds, used to instantiate the built-in actions on
concrete inputs. -/
def wOK : WorkflowOps :=
  { OpenLog := none, OpenCache := none, ClearCache := none,
    OpenData := none, ClearData := none, Reset := none }

/-- A concrete one-action registry: just the open-log built-in. -/
def testRegistry : MagicActions := MagicActions.Register [] [openLogMagic wOK]

/-- A concrete two-action registry: the open-log and open-data built-ins. -/
def testRegistry2 : MagicActions :=
  MagicActions.Register [] [openLogMagic wOK, openDataMagic wOK]

/-- A concrete action whose `Run` fails, with reason "kaboom". -/
def failAct : MagicAction :=
  { Keyword := "boom", Description := "always fails", RunText := "About to fail",
    Run := some "kaboom" }

/-- A concrete registry holding only `failAct`. -/
def failRegistry : MagicActions := MagicActions.Register [] [failAct]

theorem registerOne_cons_eq (k' : String) (b : MagicAction) (rest : MagicActions)
    (a : MagicAction) (hk : k' = a.Keyword) :
    MagicActions.registerOne ((k', b) :: rest) a = (k', a) :: rest := by
  simp [MagicActions.registerOne, hk]

theorem registerOne_cons_ne (k' : String) (b : MagicAction) (rest : MagicActions)
    (a : MagicAction) (hk : k' ≠ a.Keyword) :
    MagicActions.registerOne ((k', b) :: rest) a = (k', b) :: MagicActions.registerOne rest a := by
  simp [MagicActions.registerOne, hk]

theorem unregisterOne_cons_eq (k' : String) (b : MagicAction) (rest : MagicActions)
    (a : MagicAction) (hk : k' = a.Keyword) :
    MagicActions.unregisterOne ((k', b) :: rest) a = rest := by
  simp [MagicActions.unregisterOne, hk]

theorem unregisterOne_cons_ne (k' : String) (b : MagicAction) (rest : MagicActions)
    (a : MagicAction) (hk : k' ≠ a.Keyword) :
    MagicActions.unregisterOne ((k', b) :: rest) a = (k', b) :: MagicActions.unregisterOne rest a := by
  simp [MagicActions.unregisterOne, hk]

theorem lookup_cons (k' : String) (b : MagicAction) (rest : MagicActions) (q : String) :
    MagicActions.lookup ((k', b) :: rest) q = if k' = q then some b else rest.lookup q := rfl

theorem lookup_registerOne (ma : MagicActions) (a : MagicAction) (k : String) :
    (MagicActions.registerOne ma a).lookup k = if k = a.Keyword then some a else ma.lookup k := by
  induction ma with
  | nil =>
    rcases eq_or_ne k a.Keyword with h | h
    · subst h; simp [MagicActions.registerOne, MagicActions.lookup]
    · simp [MagicActions.registerOne, MagicActions.lookup, if_neg h, if_neg (Ne.symm h)]
  | cons p rest ih =>
    obtain ⟨k', b⟩ := p
    rcases eq_or_ne k' a.Keyword with hk | hk
    · rw [registerOne_cons_eq k' b rest a hk, lookup_cons, lookup_cons]
      rcases eq_or_ne k' k with h | h
      · rw [if_pos h, if_pos h, if_pos (h.symm.trans hk)]
      · rw [if_neg h, if_neg h, if_neg (fun hh : k = a.Keyword => h (hk.symm ▸ hh.symm))]
    · rw [registerOne_cons_ne k' b rest a hk, lookup_cons, lookup_cons]
      rcases eq_or_ne k' k with h | h
      · rw [if_pos h, if_pos h, if_neg (fun hh : k = a.Keyword => hk (h.symm ▸ hh))]
      · rw [if_neg h, if_neg h, ih]

theorem lookup_eq_none_of_not_mem (ma : MagicActions) (k : String)
    (h : k ∉ ma.map Prod.fst) : ma.lookup k = none := by
  induction ma with
  | nil => rfl
  | cons p rest ih =>
    obtain ⟨k', b⟩ := p
    simp only [List.map_cons, List.mem_cons] at h
    push_neg at h
    rw [lookup_cons, if_neg (Ne.symm h.1)]
    exact ih h.2

theorem unregisterOne_of_lookup_none (ma : MagicActions) (a : MagicAction)
    (h : ma.lookup a.Keyword = none) : MagicActions.unregisterOne ma a = ma := by
  induction ma with
  | nil => rfl
  | cons p rest ih =>
    obtain ⟨k', b⟩ := p
    rw [lookup_cons] at h
    rcases eq_or_ne k' a.Keyword with hk | hk
    · rw [if_pos hk] at h; exact absurd h (by simp)
    · rw [if_neg hk] at h
      rw [unregisterOne_cons_ne k' b rest a hk, ih h]

theorem lookup_unregisterOne (ma : MagicActions) (a : MagicAction)
    (hnd : (ma.map Prod.fst).Nodup) (k : String) :
    (MagicActions.unregisterOne ma a).lookup k = if k = a.Keyword then none else ma.lookup k := by
  induction ma with
  | nil => simp [MagicActions.unregisterOne, MagicActions.lookup]
  | cons p rest ih =>
    obtain ⟨k', b⟩ := p
    simp only [List.map_cons, List.nodup_cons] at hnd
    rcases eq_or_ne k' a.Keyword with hk | hk
    · rw [unregisterOne_cons_eq k' b rest a hk, lookup_cons]
      rcases eq_or_ne k a.Keyword with h | h
      · rw [if_pos h]
        exact lookup_eq_none_of_not_mem rest k (by rw [h, ← hk]; exact hnd.1)
      · rw [if_neg h, if_neg (fun hh : k' = k => h (hh.symm.trans hk))]
    · rw [unregisterOne_cons_ne k' b rest a hk, lookup_cons, lookup_cons]
      rcases eq_or_ne k' k with h | h
      · rw [if_pos h, if_pos h, if_neg (fun hh : k = a.Keyword => hk (h.symm ▸ hh))]
      · rw [if_neg h, if_neg h, ih hnd.2]

theorem mem_keys_registerOne (ma : MagicActions) (a : MagicAction) (x : String)
    (h : x ∈ (MagicActions.registerOne ma a).map Prod.fst) :
    x ∈ ma.map Prod.fst ∨ x = a.Keyword := by
  induction ma with
  | nil =>
    simp only [MagicActions.registerOne, List.map_cons, List.map_nil, List.mem_singleton] at h
    exact Or.inr h
  | cons p rest ih =>
    obtain ⟨k', b⟩ := p
    rcases eq_or_ne k' a.Keyword with hk | hk
    · rw [registerOne_cons_eq k' b rest a hk, List.map_cons] at h
      rcases List.mem_cons.mp h with h | h
      · exact Or.inl (List.mem_cons.mpr (Or.inl h))
      · exact Or.inl (List.mem_cons.mpr (Or.inr h))
    · rw [registerOne_cons_ne k' b rest a hk, List.map_cons] at h
      rcases List.mem_cons.mp h with h | h
      · exact Or.inl (List.mem_cons.mpr (Or.inl h))
      · rcases ih h with h' | h'
        · exact Or.inl (List.mem_cons.mpr (Or.inr h'))
        · exact Or.inr h'

theorem WF_registerOne (ma : MagicActions) (a : MagicAction) (h : ma.WF) :
    (MagicActions.registerOne ma a).WF := by
  induction ma with
  | nil =>
    constructor
    · intro p hp
      simp only [MagicActions.registerOne, List.mem_singleton] at hp
      simp [hp]
    · simp [MagicActions.registerOne]
  | cons p rest ih =>
    obtain ⟨k', b⟩ := p
    obtain ⟨hent, hnd⟩ := h
    rw [List.map_cons, List.nodup_cons] at hnd
    have hrest : MagicActions.WF rest :=
      ⟨fun q hq => hent q (List.mem_cons_of_mem _ hq), hnd.2⟩
    rcases eq_or_ne k' a.Keyword with hk | hk
    · rw [registerOne_cons_eq k' b rest a hk]
      constructor
      · intro q hq
        rcases List.mem_cons.mp hq with hq | hq
        · rw [hq]; exact hk.symm
        · exact hent q (List.mem_cons_of_mem _ hq)
      · rw [List.map_cons, List.nodup_cons]
        exact hnd
    · obtain ⟨ihent, ihnd⟩ := ih hrest
      rw [registerOne_cons_ne k' b rest a hk]
      constructor
      · intro q hq
        rcases List.mem_cons.mp hq with hq | hq
        · rw [hq]; exact hent (k', b) (List.mem_cons_self _ _)
        · exact ihent q hq
      · rw [List.map_cons, List.nodup_cons]
        refine ⟨fun hmem => ?_, ihnd⟩
        rcases mem_keys_registerOne rest a k' hmem with h' | h'
        · exact hnd.1 h'
        · exact hk h'

theorem unregisterOne_sublist (ma : MagicActions) (a : MagicAction) :
    List.Sublist (MagicActions.unregisterOne ma a) ma := by
  induction ma with
  | nil => simp [MagicActions.unregisterOne]
  | cons p rest ih =>
    obtain ⟨k', b⟩ := p
    rcases eq_or_ne k' a.Keyword with hk | hk
    · rw [unregisterOne_cons_eq k' b rest a hk]
      exact List.sublist_cons_self (k', b) rest
    · rw [unregisterOne_cons_ne k' b rest a hk]
      exact List.Sublist.cons₂ (k', b) ih

theorem WF_unregisterOne (ma : MagicActions) (a : MagicAction) (h : ma.WF) :
    (MagicActions.unregisterOne ma a).WF := by
  obtain ⟨hent, hnd⟩ := h
  have hs := unregisterOne_sublist ma a
  exact ⟨fun p hp => hent p (hs.subset hp), hnd.sublist (hs.map Prod.fst)⟩

theorem WF_Register (ma : MagicActions) (actions : List MagicAction) (h : ma.WF) :
    (ma.Register actions).WF := by
  induction actions generalizing ma with
  | nil => exact h
  | cons a rest ih => exact ih _ (WF_registerOne ma a h)

theorem WF_Unregister (ma : MagicActions) (actions : List MagicAction) (h : ma.WF) :
    (ma.Unregister actions).WF := by
  induction actions generalizing ma with
  | nil => exact h
  | cons a rest ih => exact ih _ (WF_unregisterOne ma a h)

theorem WF_applyRegOps (ma : MagicActions) (ops : List RegOp) (h : ma.WF) :
    (applyRegOps ma ops).WF := by
  induction ops generalizing ma with
  | nil => exact h
  | cons op rest ih =>
    cases op with
    | reg actions => exact ih _ (WF_Register ma actions h)
    | unreg actions => exact ih _ (WF_Unregister ma actions h)



theorem hasMagicPre_append (pfx k : String) : hasMagicPre (pfx ++ k) pfx = true := by
  have hdata : (pfx ++ k).data = pfx.data ++ k.data := rfl
  simp [hasMagicPre, hdata, List.take_left]

theorem dropMagicPre_append (pfx k : String) : dropMagicPre (pfx ++ k) pfx = k := by
  have hdata : (pfx ++ k).data = pfx.data ++ k.data := rfl
  rw [dropMagicPre, hdata, List.drop_left]

theorem ArgsLoop_append_none (ma : MagicActions) (pfx : String) (pre rest : List String)
    (h : ∀ s ∈ pre, hasMagicPre (trimSpace s) pfx = false) :
    ArgsLoop ma pfx (pre ++ rest) = ArgsLoop ma pfx rest := by
  induction pre with
  | nil => rfl
  | cons s pre ih =>
    have hs := h s (List.mem_cons_self s pre)
    simp only [List.cons_append, ArgsLoop, hs, Bool.false_eq_true, if_false]
    exact ih (fun t ht => h t (List.mem_cons_of_mem s ht))

theorem ArgsLoop_eq_none (ma : MagicActions) (pfx : String) (args : List String)
    (h : ∀ s ∈ args, hasMagicPre (trimSpace s) pfx = false) :
    ArgsLoop ma pfx args = none := by
  induction args with
  | nil => rfl
  | cons s rest ih =>
    have hs := h s (List.mem_cons_self s rest)
    simp only [ArgsLoop, hs, Bool.false_eq_true, if_false]
    exact ih (fun t ht => h t (List.mem_cons_of_mem s ht))

theorem ArgsLoop_cons_found (ma : MagicActions) (pfx : String) (x : String) (post : List String)
    (hx : hasMagicPre (trimSpace x) pfx = true) :
    ArgsLoop ma pfx (x :: post) = some (handleQuery ma pfx (dropMagicPre (trimSpace x) pfx)) := by
  simp only [ArgsLoop, hx, if_true]

theorem Args_first_found (ma : MagicActions) (pfx : String) (pre : List String) (x : String)
    (post : List String)
    (hpre : ∀ s ∈ pre, hasMagicPre (trimSpace s) pfx = false)
    (hx : hasMagicPre (trimSpace x) pfx = true) :
    ma.Args (pre ++ x :: post) pfx =
      (ArgsResult.exited 0, handleQuery ma pfx (dropMagicPre (trimSpace x) pfx)) := by
  rw [MagicActions.Args, ArgsLoop_append_none ma pfx pre _ hpre,
    ArgsLoop_cons_found ma pfx x post hx]

theorem handleQuery_some (ma : MagicActions) (pfx q : String) (a : MagicAction)
    (h : ma.lookup q = some a) : handleQuery ma pfx q = exactRunEffects a := by
  simp [handleQuery, h]

theorem handleQuery_none (ma : MagicActions) (pfx q : String)
    (h : ma.lookup q = none) : handleQuery ma pfx q = fallbackEffects ma pfx q := by
  simp [handleQuery, h]

theorem exactRunEffects_of_failure (a : MagicAction) (err : String) (h : a.Run = some err) :
    exactRunEffects a =
      [Effect.logLine a.RunText,
       Effect.uiItem (((NewItem a.RunText).Icon IconInfo).Valid false),
       Effect.sendFeedback,
       Effect.runAction a,
       Effect.logLine ("Error running magic arg `" ++ a.Description ++ "`: " ++ err),
       Effect.finishLog true,
       Effect.finishLog false] := by
  simp [exactRunEffects, h]

theorem exactRunEffects_countP_isRun (a : MagicAction) :
    (exactRunEffects a).countP Effect.isRun = 1 := by
  cases h : a.Run <;>
    simp [exactRunEffects, h, Effect.isRun, List.countP_cons, List.countP_append]

theorem exactRunEffects_count_self (a : MagicAction) :
    (exactRunEffects a).count (Effect.runAction a) = 1 := by
  cases h : a.Run <;>
    simp [exactRunEffects, h, List.count_cons, List.count_append, List.count_nil]

theorem exactRunEffects_countP_isFilter (a : MagicAction) :
    (exactRunEffects a).countP Effect.isFilter = 0 := by
  cases h : a.Run <;>
    simp [exactRunEffects, h, Effect.isFilter, List.countP_cons, List.countP_append]

theorem fallbackEffects_countP_isRun (ma : MagicActions) (pfx q : String) :
    (fallbackEffects ma pfx q).countP Effect.isRun = 0 := by
  simp [fallbackEffects, List.countP_append, List.countP_cons, List.countP_map,
    Effect.isRun, Function.comp]

theorem fallbackEffects_countP_isUI (ma : MagicActions) (pfx q : String) :
    (fallbackEffects ma pfx q).countP Effect.isUI = ma.length := by
  simp [fallbackEffects, List.countP_append, List.countP_cons, List.countP_map,
    Effect.isUI, Function.comp, List.countP_true]

theorem filter_mem_fallbackEffects (ma : MagicActions) (pfx q : String) :
    Effect.filter q ∈ fallbackEffects ma pfx q := by
  simp [fallbackEffects]

theorem uiItem_mem_fallbackEffects (ma : MagicActions) (pfx q : String)
    (p : String × MagicAction) (hp : p ∈ ma) :
    Effect.uiItem (fallbackItem pfx p.1 p.2) ∈ fallbackEffects ma pfx q := by
  simp only [fallbackEffects, List.mem_append]
  exact Or.inl (List.mem_map.mpr ⟨p, hp, rfl⟩)

theorem runFeedback_append_items (f : String → Item → Bool) (buf : List Item)
    (items : List Item) (rest : List Effect) :
    runFeedback f buf (items.map Effect.uiItem ++ rest) = runFeedback f (buf ++ items) rest := by
  induction items generalizing buf with
  | nil => simp
  | cons it items ih =>
    simp only [List.map_cons, List.cons_append, runFeedback, applyEffect, List.append_eq]
    rw [ih, List.append_assoc, List.singleton_append]

theorem runFeedback_fallback_of_empty_filter (ma : MagicActions) (pfx q : String)
    (f : String → Item → Bool)
    (hempty : (ma.map fun p => fallbackItem pfx p.1 p.2).filter (f q) = []) :
    runFeedback f [] (fallbackEffects ma pfx q) =
      [warnItem "No matching action" "Try another query?"] := by
  have hmap : (ma.map fun p => Effect.uiItem (fallbackItem pfx p.1 p.2)) =
      (ma.map fun p => fallbackItem pfx p.1 p.2).map Effect.uiItem := by
    simp [List.map_map]
  rw [fallbackEffects, hmap, runFeedback_append_items f [] _ _, List.nil_append]
  simp only [runFeedback, applyEffect, hempty, List.isEmpty_nil, if_true]


/-- C1 (amended): for every registry and every argument vector in which
the first element whose whitespace-trimmed form starts with the
configured prefix has trimmed form prefix + k, where k is a keyword
registered in the registry, Args invokes that action's Run exactly once
(and runs no other action), never evaluates the fallback listing's
filter, and terminates the process with exit status 0. -/
theorem args_registered_magic_runs_once (ma : MagicActions) (pfx : String)
    (pre post : List String) (x k : String) (a : MagicAction)
    (hpre : ∀ s ∈ pre, hasMagicPre (trimSpace s) pfx = false)
    (hx : trimSpace x = pfx ++ k)
    (hk : ma.lookup k = some a) :
    ma.Args (pre ++ x :: post) pfx = (ArgsResult.exited 0, exactRunEffects a) ∧
    (exactRunEffects a).countP Effect.isRun = 1 ∧
    (exactRunEffects a).count (Effect.runAction a) = 1 ∧
    (exactRunEffects a).countP Effect.isFilter = 0 := by
  have hx' : hasMagicPre (trimSpace x) pfx = true := by
    rw [hx]; exact hasMagicPre_append pfx k
  have hq : dropMagicPre (trimSpace x) pfx = k := by
    rw [hx]; exact dropMagicPre_append pfx k
  refine ⟨?_, exactRunEffects_countP_isRun a, exactRunEffects_count_self a,
    exactRunEffects_countP_isFilter a⟩
  rw [Args_first_found ma pfx pre x post hpre hx', hq, handleQuery_some ma pfx k a hk]

/-- C1 witness: the amended statement evaluated on a concrete registry
and argument vector. -/
theorem args_registered_magic_runs_once_inst :
    testRegistry.Args ["foo", " workflow:log ", "bar"] "workflow:" =
      (ArgsResult.exited 0, exactRunEffects (openLogMagic wOK)) ∧
    (exactRunEffects (openLogMagic wOK)).countP Effect.isRun = 1 ∧
    (exactRunEffects (openLogMagic wOK)).count (Effect.runAction (openLogMagic wOK)) = 1 ∧
    (exactRunEffects (openLogMagic wOK)).countP Effect.isFilter = 0 :=
  args_registered_magic_runs_once testRegistry "workflow:" ["foo"] ["bar"]
    " workflow:log " "log" (openLogMagic wOK) (by decide) (by decide) (by decide)

/-- C1 counterexample: the vector ["workflow:xyz", "workflow:log"] does
contain an element whose trimmed form is prefix + "log" with "log"
registered, yet Args runs no action at all and does evaluate the
fallback listing's filter. -/
theorem args_registered_element_ignored_cex :
    (testRegistry.Args ["workflow:xyz", "workflow:log"] "workflow:").2.countP Effect.isRun = 0 ∧
    (testRegistry.Args ["workflow:xyz", "workflow:log"] "workflow:").2.countP Effect.isFilter = 1 := by
  decide

/-- C2 (amended): for every registry and every argument vector in which
the first element whose whitespace-trimmed form starts with the
configured prefix has trimmed form prefix + k, where k is not a
registered keyword, Args emits one UI item per registered action
(exposing keyword, description, autocomplete string prefix + keyword
and match string "keyword description"), applies the UI filter with the
query k, emits a no-matches warning placeholder if filtering yields
nothing, never calls any action's Run, and terminates the process with
exit status 0. -/
theorem args_fallback_lists_and_filters (ma : MagicActions) (pfx : String)
    (pre post : List String) (x k : String) (f : String → Item → Bool)
    (hpre : ∀ s ∈ pre, hasMagicPre (trimSpace s) pfx = false)
    (hx : trimSpace x = pfx ++ k)
    (hk : ma.lookup k = none) :
    ma.Args (pre ++ x :: post) pfx = (ArgsResult.exited 0, fallbackEffects ma pfx k) ∧
    (∀ p ∈ ma, Effect.uiItem (fallbackItem pfx p.1 p.2) ∈ fallbackEffects ma pfx k) ∧
    (fallbackEffects ma pfx k).countP Effect.isUI = ma.length ∧
    Effect.filter k ∈ fallbackEffects ma pfx k ∧
    (fallbackEffects ma pfx k).countP Effect.isRun = 0 ∧
    ((ma.map fun p => fallbackItem pfx p.1 p.2).filter (f k) = [] →
      runFeedback f [] (fallbackEffects ma pfx k) =
        [warnItem "No matching action" "Try another query?"]) := by
  have hx' : hasMagicPre (trimSpace x) pfx = true := by
    rw [hx]; exact hasMagicPre_append pfx k
  have hq : dropMagicPre (trimSpace x) pfx = k := by
    rw [hx]; exact dropMagicPre_append pfx k
  refine ⟨?_, fun p hp => uiItem_mem_fallbackEffects ma pfx k p hp,
    fallbackEffects_countP_isUI ma pfx k, filter_mem_fallbackEffects ma pfx k,
    fallbackEffects_countP_isRun ma pfx k,
    fun hempty => runFeedback_fallback_of_empty_filter ma pfx k f hempty⟩
  rw [Args_first_found ma pfx pre x post hpre hx', hq, handleQuery_none ma pfx k hk]

/-- C2 witness: the amended statement evaluated on a concrete registry,
argument vector and (always-rejecting) filter predicate. -/
theorem args_fallback_lists_and_filters_inst :
    testRegistry.Args ["workflow:xyz"] "workflow:" =
      (ArgsResult.exited 0, fallbackEffects testRegistry "workflow:" "xyz") ∧
    Effect.uiItem (fallbackItem "workflow:" "log" (openLogMagic wOK)) ∈
      fallbackEffects testRegistry "workflow:" "xyz" ∧
    (fallbackEffects testRegistry "workflow:" "xyz").countP Effect.isUI = testRegistry.length ∧
    Effect.filter "xyz" ∈ fallbackEffects testRegistry "workflow:" "xyz" ∧
    (fallbackEffects testRegistry "workflow:" "xyz").countP Effect.isRun = 0 ∧
    runFeedback (fun _ _ => false) [] (fallbackEffects testRegistry "workflow:" "xyz") =
      [warnItem "No matching action" "Try another query?"] := by
  have h := args_fallback_lists_and_filters testRegistry "workflow:" [] [] "workflow:xyz"
    "xyz" (fun _ _ => false) (by decide) (by decide) (by decide)
  exact ⟨h.1, h.2.1 ("log", openLogMagic wOK) (by decide), h.2.2.1, h.2.2.2.1,
    h.2.2.2.2.1, h.2.2.2.2.2 (by decide)⟩

/-- C2 counterexample: the vector ["workflow:log", "workflow:xyz"] does
contain the element prefix + "xyz" with "xyz" unregistered, yet Args
runs an action's Run (the "log" action) and never applies the fallback
filter. -/
theorem args_unregistered_element_runs_cex :
    (testRegistry.Args ["workflow:log", "workflow:xyz"] "workflow:").2.countP Effect.isRun = 1 ∧
    (testRegistry.Args ["workflow:log", "workflow:xyz"] "workflow:").2.countP Effect.isFilter = 0 := by
  decide

/-- C3: for every registry and every argument vector in which no
element's whitespace-trimmed form starts with the configured prefix,
Args returns the argument vector unchanged and records no logging or UI
side effect. -/
theorem args_no_magic_passthrough (ma : MagicActions) (pfx : String) (args : List String)
    (h : ∀ s ∈ args, hasMagicPre (trimSpace s) pfx = false) :
    ma.Args args pfx = (ArgsResult.passThrough args, []) := by
  rw [MagicActions.Args, ArgsLoop_eq_none ma pfx args h]

/-- C3 witness: the statement evaluated on a concrete registry and a
prefix-free argument vector. -/
theorem args_no_magic_passthrough_inst :
    testRegistry.Args ["foo", " bar "] "workflow:" =
      (ArgsResult.passThrough ["foo", " bar "], []) :=
  args_no_magic_passthrough testRegistry "workflow:" ["foo", " bar "] (by decide)

/-- C4: Args iterates the arguments in order, trimming each; the first
argument whose trimmed form starts with the prefix is the only one
acted on, the query looked up (by exact, case-sensitive string
equality, inside handleQuery's registry lookup) is that trimmed
argument with the prefix removed, and any later arguments are never
examined: the outcome equals the outcome with the tail dropped. -/
theorem args_first_magic_decides (ma : MagicActions) (pfx : String)
    (pre post : List String) (x : String)
    (hpre : ∀ s ∈ pre, hasMagicPre (trimSpace s) pfx = false)
    (hx : hasMagicPre (trimSpace x) pfx = true) :
    ma.Args (pre ++ x :: post) pfx =
      (ArgsResult.exited 0, handleQuery ma pfx (dropMagicPre (trimSpace x) pfx)) ∧
    ma.Args (pre ++ x :: post) pfx = ma.Args (pre ++ [x]) pfx := by
  have h1 := Args_first_found ma pfx pre x post hpre hx
  have h2 := Args_first_found ma pfx pre x [] hpre hx
  exact ⟨h1, h1.trans h2.symm⟩

/-- C4 witness: the statement evaluated on a concrete two-action
registry, with a later magic argument that is ignored. -/
theorem args_first_magic_decides_inst :
    testRegistry2.Args ["foo", " workflow:data ", "workflow:log"] "workflow:" =
      (ArgsResult.exited 0,
        handleQuery testRegistry2 "workflow:" (dropMagicPre (trimSpace " workflow:data ") "workflow:")) ∧
    testRegistry2.Args ["foo", " workflow:data ", "workflow:log"] "workflow:" =
      testRegistry2.Args ["foo", " workflow:data "] "workflow:" :=
  args_first_magic_decides testRegistry2 "workflow:" ["foo"] ["workflow:log"]
    " workflow:data " (by decide) (by decide)

/-- C5: when the matched action's Run returns a failure, Args logs an
error line holding the action's description and the failure reason,
flushes the log as a failure before the unconditional non-failure flush
(both flushes occur, in that order), and still exits with status 0. -/
theorem args_run_failure_logs_and_exits_zero (ma : MagicActions) (pfx : String)
    (pre post : List String) (x k : String) (a : MagicAction) (err : String)
    (hpre : ∀ s ∈ pre, hasMagicPre (trimSpace s) pfx = false)
    (hx : trimSpace x = pfx ++ k)
    (hk : ma.lookup k = some a)
    (hfail : a.Run = some err) :
    ma.Args (pre ++ x :: post) pfx = (ArgsResult.exited 0, exactRunEffects a) ∧
    Effect.logLine ("Error running magic arg `" ++ a.Description ++ "`: " ++ err) ∈
      exactRunEffects a ∧
    List.Sublist [Effect.finishLog true, Effect.finishLog false] (exactRunEffects a) := by
  have hx' : hasMagicPre (trimSpace x) pfx = true := by
    rw [hx]; exact hasMagicPre_append pfx k
  have hq : dropMagicPre (trimSpace x) pfx = k := by
    rw [hx]; exact dropMagicPre_append pfx k
  refine ⟨?_, ?_, ?_⟩
  · rw [Args_first_found ma pfx pre x post hpre hx', hq, handleQuery_some ma pfx k a hk]
  · rw [exactRunEffects_of_failure a err hfail]
    simp
  · rw [exactRunEffects_of_failure a err hfail]
    exact (((((List.Sublist.refl
      [Effect.finishLog true, Effect.finishLog false]).cons _).cons _).cons _).cons _).cons _

/-- C5 witness: the statement evaluated on a concrete registry holding
an action whose Run fails with reason "kaboom". -/
theorem args_run_failure_logs_and_exits_zero_inst :
    failRegistry.Args ["workflow:boom"] "workflow:" =
      (ArgsResult.exited 0, exactRunEffects failAct) ∧
    Effect.logLine ("Error running magic arg `" ++ failAct.Description ++ "`: " ++ "kaboom") ∈
      exactRunEffects failAct ∧
    List.Sublist [Effect.finishLog true, Effect.finishLog false] (exactRunEffects failAct) :=
  args_run_failure_logs_and_exits_zero failRegistry "workflow:" [] [] "workflow:boom"
    "boom" failAct "kaboom" (by decide) (by decide) (by decide) (by decide)

/-- C6: Register stores the action under its own keyword, overwriting
any prior entry (last-write-wins) and leaving every other keyword's
lookup unchanged; it always succeeds (it is a total function), with no
restriction on the keyword, the empty string included. -/
theorem register_last_write_wins (ma : MagicActions) (a : MagicAction) (k : String) :
    (ma.Register [a]).lookup k = if k = a.Keyword then some a else ma.lookup k :=
  lookup_registerOne ma a k

/-- C7: unregistering an action whose keyword is absent is a no-op that
leaves the registry itself unchanged; on a registry without repeated
keys, unregistering removes exactly the entry stored under the
action's keyword and no other. -/
theorem unregister_absent_noop (ma : MagicActions) (a : MagicAction) :
    (ma.lookup a.Keyword = none → ma.Unregister [a] = ma) ∧
    ((ma.map Prod.fst).Nodup →
      ∀ k, (ma.Unregister [a]).lookup k = if k = a.Keyword then none else ma.lookup k) := by
  constructor
  · intro h; exact unregisterOne_of_lookup_none ma a h
  · intro hnd k; exact lookup_unregisterOne ma a hnd k

/-- C7 witness: unregistering the absent "data" action from the
one-action registry is a no-op, and unregistering the present "log"
action removes that entry. -/
theorem unregister_absent_noop_inst :
    testRegistry.Unregister [openDataMagic wOK] = testRegistry ∧
    (testRegistry.Unregister [openLogMagic wOK]).lookup "log" =
      (if "log" = (openLogMagic wOK).Keyword then none else testRegistry.lookup "log") :=
  ⟨(unregister_absent_noop testRegistry (openDataMagic wOK)).1 (by decide),
    (unregister_absent_noop testRegistry (openLogMagic wOK)).2 (by decide) "log"⟩

/-- C8: the default action set has exactly six built-in actions with
the pairwise-distinct keywords "log", "cache", "delcache", "data",
"deldata" and "reset", in source order; the help and update actions are
not part of it. -/
theorem default_actions_six (w : WorkflowOps) (URL : String) (r : Option String) (u : Updater) :
    (DefaultMagicActions w).length = 6 ∧
    (DefaultMagicActions w).map MagicAction.Keyword =
      ["log", "cache", "delcache", "data", "deldata", "reset"] ∧
    ((DefaultMagicActions w).map MagicAction.Keyword).Nodup ∧
    (helpMagic URL r).Keyword ∉ (DefaultMagicActions w).map MagicAction.Keyword ∧
    (updateMagic u).Keyword ∉ (DefaultMagicActions w).map MagicAction.Keyword := by
  refine ⟨rfl, rfl, ?_, ?_, ?_⟩
  · show (["log", "cache", "delcache", "data", "deldata", "reset"] : List String).Nodup
    decide
  · show "help" ∉ (["log", "cache", "delcache", "data", "deldata", "reset"] : List String)
    decide
  · show "update" ∉ (["log", "cache", "delcache", "data", "deldata", "reset"] : List String)
    decide

/-- C9: the registry invariant (each entry stored under its own
action's keyword, at most one entry per keyword) holds for the empty
registry and is preserved by every sequence of Register and Unregister
calls starting from any registry satisfying it. -/
theorem registry_invariant_preserved (ma : MagicActions) (ops : List RegOp) (h : ma.WF) :
    MagicActions.WF [] ∧ (applyRegOps ma ops).WF :=
  ⟨⟨fun p hp => absurd hp (List.not_mem_nil p), List.nodup_nil⟩, WF_applyRegOps ma ops h⟩

/-- C9 witness: the invariant evaluated after a concrete sequence of
Register and Unregister calls starting from the empty registry. -/
theorem registry_invariant_preserved_inst :
    MagicActions.WF [] ∧
    (applyRegOps [] [RegOp.reg [openLogMagic wOK, openDataMagic wOK],
      RegOp.unreg [openLogMagic wOK]]).WF :=
  registry_invariant_preserved []
    [RegOp.reg [openLogMagic wOK, openDataMagic wOK], RegOp.unreg [openLogMagic wOK]]
    ⟨fun p hp => absurd hp (List.not_mem_nil p), List.nodup_nil⟩

/-- C10: updateMagic's Run returns CheckForUpdate's error without
consulting UpdateAvailable or Install when the check fails; when the
check succeeds and no update is available it succeeds without calling
Install; and Install is called only when the check succeeded and an
update is available. -/
theorem update_magic_lazy (u : Updater) (e : String) :
    (u.CheckForUpdate = some e →
      updateMagicRun u = (some e, [UpdaterEvent.checkForUpdate])) ∧
    (u.CheckForUpdate = none → u.UpdateAvailable = false →
      (updateMagicRun u).1 = none ∧ UpdaterEvent.install ∉ (updateMagicRun u).2) ∧
    (UpdaterEvent.install ∈ (updateMagicRun u).2 →
      u.CheckForUpdate = none ∧ u.UpdateAvailable = true) := by
  refine ⟨?_, ?_, ?_⟩
  · intro h; simp [updateMagicRun, h]
  · intro h1 h2; simp [updateMagicRun, h1, h2]
  · intro h
    cases hc : u.CheckForUpdate with
    | some e' => simp [updateMagicRun, hc] at h
    | none =>
      cases hb : u.UpdateAvailable with
      | false => simp [updateMagicRun, hc, hb] at h
      | true => exact ⟨rfl, rfl⟩

/-- C10 witness: the three properties evaluated on concrete updaters
(failing check; successful check with no update; successful check with
an update available). -/
theorem update_magic_lazy_inst :
    updateMagicRun (Updater.mk (some "offline") true (some "x")) =
      (some "offline", [UpdaterEvent.checkForUpdate]) ∧
    ((updateMagicRun (Updater.mk none false none)).1 = none ∧
      UpdaterEvent.install ∉ (updateMagicRun (Updater.mk none false none)).2) ∧
    ((Updater.mk none true none).CheckForUpdate = none ∧
      (Updater.mk none true none).UpdateAvailable = true) :=
  ⟨(update_magic_lazy (Updater.mk (some "offline") true (some "x")) "offline").1 rfl,
    (update_magic_lazy (Updater.mk none false none) "e").2.1 rfl rfl,
    (update_magic_lazy (Updater.mk none true none) "e").2.2 (by decide)⟩

end AwGo
